import Mathlib

/-!
Verification development for the statistical-arbitrage trading model
(`stat_arb_model.py`).  The Python source is shallowly embedded below:
pure numeric code over pandas Series / numpy arrays becomes Lean functions
over `List ℚ` (for the exactly-rational computations) or `List ℝ` (where a
square root is involved), `assert` statements become `Option`-valued
guards (`none` models an `AssertionError` escaping, i.e. the computation
fails fast and does not return), and external collaborators (the convex
QP solver, the Ledoit-Wolf covariance routine) are abstracted as function
parameters, exactly as the design document treats them (interface-only).
-/

namespace StatArb

/-- `Series.mean()`: sum divided by length (an empty series yields the
junk value `0/0 = 0`; every use below is guarded by nonemptiness or by a
failing postcondition, matching the NaN propagation of pandas). -/
def listMean {α : Type*} [Field α] (l : List α) : α :=
  l.sum / (l.length : α)

/-- `Series.var()` with the pandas default `ddof = 1`:
`Σ (x - mean)² / (n - 1)`. -/
def listVar {α : Type*} [Field α] (l : List α) : α :=
  (l.map (fun x => (x - listMean l) ^ 2)).sum / ((l.length : α) - 1)

/-- `Series.std()`: square root of the sample variance. -/
noncomputable def listStd (l : List ℝ) : ℝ :=
  Real.sqrt (listVar l)

/-- `max(abs(out))` over a series, folded with a `0` base (all uses are on
series of absolute values, where the base is a lower bound). -/
noncomputable def listMaxAbs (l : List ℝ) : ℝ :=
  (l.map (fun x => |x|)).foldl max 0

/-- One standardization step of `windsorize`:
`out = (out - out.mean())/out.std()`.  When the standard deviation is
zero, Lean's `x / 0 = 0` convention produces the all-zero list; pandas
produces an all-NaN series there.  Both are subsequently rejected by the
final standard-deviation assertion, so the observable behaviour (no value
is returned) agrees. -/
noncomputable def standardize (l : List ℝ) : List ℝ :=
  l.map (fun x => (x - listMean l) / listStd l)

/-- The clipping step of `windsorize`:
`out[abs(out)>3] = 3*out[abs(out)>3]/abs(out[abs(out)>3])`,
i.e. every entry of magnitude above 3 is replaced by `3 · sign`. -/
noncomputable def clip3 (l : List ℝ) : List ℝ :=
  l.map (fun x => if 3 < |x| then 3 * x / |x| else x)

/-- The `while(ct < n)` loop of `windsorize`: each iteration standardizes
and then clips. -/
noncomputable def windLoop : ℕ → List ℝ → List ℝ
  | 0, l => l
  | n + 1, l => windLoop n (clip3 (standardize l))

/-- `windsorize(raw, n)`: run the loop, then the three `assert`s
(`abs(out.mean())<0.01`, `abs(out.std()-1)<0.01`, `max(abs(out))-3<0.01`).
A failing assertion raises, i.e. no value is returned: `none`. -/
noncomputable def windsorize (raw : List ℝ) (n : ℕ) : Option (List ℝ) :=
  let out := windLoop n raw
  if |listMean out| < 0.01 ∧ |listStd out - 1| < 0.01 ∧ listMaxAbs out - 3 < 0.01
  then some out else none

/-- `np.dot` on two one-dimensional arrays: the sum of elementwise
products. -/
def dot (a b : List ℚ) : ℚ :=
  (List.zipWith (· * ·) a b).sum

/-- The `ret` computed by `alpha_mom_str`:
`data_period.iloc[0,:]/data_period.iloc[-1,:]-1`, the elementwise ratio of
the FIRST row of the window to the LAST row, minus one. -/
def alpha_mom_ret (data_period : List (List ℚ)) : List ℚ :=
  List.zipWith (fun a b => a / b - 1) (data_period.headD []) (data_period.getLastD [])

/-- The slice `px_close.iloc[t-250:t,:]` taken by `alpha_model` before
calling `alpha_mom_str`. -/
def mom_window (t : ℕ) (px : List (List ℚ)) : List (List ℚ) :=
  (px.take t).drop (t - 250)

/-- The raw (pre-normalization) momentum sub-signal for day `t`. -/
def mom_raw_at (t : ℕ) (px : List (List ℚ)) : List ℚ :=
  alpha_mom_ret (mom_window t px)

/-- Column-wise sums of a rectangular table. -/
def colSums : List (List ℚ) → List ℚ
  | [] => []
  | [r] => r
  | r :: rs => List.zipWith (· + ·) r (colSums rs)

/-- `DataFrame.mean(axis = 0)`: the column-wise mean over the rows. -/
def colMeans (rows : List (List ℚ)) : List ℚ :=
  (colSums rows).map (fun s => s / (rows.length : ℚ))

/-- The python slice `data_period.iloc[-5:-1,:]`: rows
`[max(L-5,0), L-1)` of an `L`-row table (ℕ-subtraction clamps at 0
exactly as python clamps negative bounds). -/
def ilocNeg5Neg1 (l : List (List ℚ)) : List (List ℚ) :=
  (l.take (l.length - 1)).drop (l.length - 5)

/-- The `avg_vol` computed by `alpha_vol_wk`: the column means of
`data_period.iloc[-5:-1,:]`. -/
def alpha_vol_avg (data_period : List (List ℚ)) : List ℚ :=
  colMeans (ilocNeg5Neg1 data_period)

/-- The slice `px_vol.iloc[t-5:t,:]` taken by `alpha_model` before calling
`alpha_vol_wk`. -/
def vol_window (t : ℕ) (px : List (List ℚ)) : List (List ℚ) :=
  (px.take t).drop (t - 5)

/-- The raw (pre-normalization) volume sub-signal for day `t`. -/
def vol_raw_at (t : ℕ) (px : List (List ℚ)) : List ℚ :=
  alpha_vol_avg (vol_window t px)

/-- The `theta` (max trade) and `pi` (max position) caps computed by the
two branches of `max_size`. -/
def max_size_caps (w : List ℚ) : ℚ × ℚ :=
  if (w.map (fun x => |x|)).sum = 0 then
    (150000, 10 * 150000)
  else
    let theta := min 150000 ((w.map (fun x => |x|)).sum * 0.01)
    (theta, min (10 * theta) ((w.filter (fun x => decide (0 < x))).sum))

/-- `max_size(w)`: the pair `(gamma, delta)` with
`gamma = np.maximum(w - theta, -pi)` and
`delta = np.minimum(w + theta, pi)`. -/
def max_size (w : List ℚ) : List ℚ × List ℚ :=
  let theta := (max_size_caps w).1
  let pi := (max_size_caps w).2
  (w.map (fun x => max (x - theta) (-pi)), w.map (fun x => min (x + theta) pi))

/-- The `for t in range(ti, m)` loop of `trade_model`, with `k` the number
of remaining days and `t` the current day index.  `opt` abstracts
`optimize_port` (whose value is produced by the external cvxopt QP
solver): it maps the day index and the previous position to the day's
solution vector.  Each day the solution is appended to the portfolio and
the market-neutrality assertion `np.dot(port_t.flatten(), beta) < 0.01`
is checked — note the SIGNED (one-sided) comparison, exactly as in the
source; a failing assertion aborts the whole run (`none`). -/
def tm_go (opt : ℕ → List ℚ → List ℚ) (beta : List ℚ) :
    ℕ → ℕ → List ℚ → List (List ℚ) → Option (List (List ℚ))
  | 0, _, _, acc => some acc
  | k + 1, t, wprev, acc =>
    let w := opt t wprev
    if dot w beta < 0.01 then tm_go opt beta k (t + 1) w (acc ++ [w]) else none

/-- `trade_model` restricted to its rebalancing loop: starting day
`ti = 250`, previous position initialized to the zero row
`port_full[0,:]` of the `m - ti` by `n` zero matrix, empty history. -/
def trade_model (opt : ℕ → List ℚ → List ℚ) (beta : List ℚ) (m n : ℕ) :
    Option (List (List ℚ)) :=
  tm_go opt beta (m - 250) 250 (List.replicate n 0) []

/-- Modelled from the spec: `equity_shared.calc_return` is a collaborator
module not contained in this repository.  Per the spec the backtest
consumes "realized per-asset daily returns (derived from price data,
aligned to the same date index as PortfolioHistory)", and `beta_model`
labels its output with `px_close.index[1:]`; so row `i` holds the simple
returns realized from price row `i` to price row `i + 1`. -/
def calc_return {α : Type*} [Field α] (px : List (List α)) : List (List α) :=
  List.zipWith (fun prev cur => List.zipWith (fun p c => c / p - 1) prev cur) px px.tail

/-- `ret_full.loc[d]` inside `backtest`: `ret_full` carries the labels
`px_close.index[1:]`, so the date with positional index `d` in
`px_close` is row `d - 1` of `calc_return`. -/
def ret_loc (px_close : List (List ℚ)) (d : ℕ) : List ℚ :=
  (calc_return px_close).getD (d - 1) []

/-- The daily-P&L series built by `backtest`: the zero series
`port_full_pd.iloc[:,0]*0` over the portfolio index, then one by one
`pnl[t] = np.dot(ret_full.loc[t], port_full_pd.loc[t])`.  The global
DataFrame `port_full_pd` is modelled by its positional date labels
`pd_dates` and rows `pd_rows`; the `port_full` parameter is kept to
mirror the source signature (the body never reads it). -/
def backtest_pnl (px_close port_full : List (List ℚ)) (pd_dates : List ℕ)
    (pd_rows : List (List ℚ)) : List ℚ :=
  (List.range pd_dates.length).foldl
    (fun acc k => acc.set k (dot (ret_loc px_close (pd_dates.getD k 0)) (pd_rows.getD k [])))
    (pd_rows.map (fun _ => 0))

/-- `Series.cumsum()`: the running partial sums. -/
def cumsum (l : List ℚ) : List ℚ :=
  (l.scanl (· + ·) 0).tail

/-- `backtest`: the cumulative P&L `pnl.cumsum()` (the plotting side
effect is out of scope). -/
def backtest (px_close port_full : List (List ℚ)) (pd_dates : List ℕ)
    (pd_rows : List (List ℚ)) : List ℚ :=
  cumsum (backtest_pnl px_close port_full pd_dates pd_rows)

/-- `np.all(np.linalg.eigvals(sigma) > 0)` for the (symmetric, hence
real-spectrum) Ledoit-Wolf output: every eigenvalue of `M` is strictly
positive. -/
def eigAllPos {n : ℕ} (M : Matrix (Fin n) (Fin n) ℝ) : Prop :=
  ∀ (μ : ℝ) (v : Fin n → ℝ), v ≠ 0 → M.mulVec v = μ • v → 0 < μ

open scoped Classical in
/-- `sigma_model`: apply the covariance estimator (`est` abstracts the
external `sklearn.covariance.LedoitWolf` routine) to the full return
history, then the eigenvalue `assert` guards the return: a non-positive
eigenvalue raises, i.e. no estimate is returned. -/
noncomputable def sigma_model {n : ℕ} (est : List (List ℝ) → Matrix (Fin n) (Fin n) ℝ)
    (px : List (List ℝ)) : Option (Matrix (Fin n) (Fin n) ℝ) :=
  let sigma := est (calc_return px)
  if eigAllPos sigma then some sigma else none

/-- A concrete 250-row single-asset price path: the close rises from 1 on
the first day of the lookback window to 2 on its last day. -/
def px0 : List (List ℚ) :=
  List.replicate 249 [1] ++ [[2]]

/-- A concrete 5-row single-asset volume path: zero volume on days 0-3
and volume 100 on day 4 (the day just before `t = 5`). -/
def pxv : List (List ℚ) :=
  [[0], [0], [0], [0], [100]]

/-! ## Theorems -/

theorem px0_len : px0.length = 250 := by
  rw [px0, List.length_append, List.length_replicate]; rfl

theorem px0_head : px0.headD [] = [1] := by
  rw [px0, show (249 : ℕ) = 248 + 1 from rfl, List.replicate_succ, List.cons_append,
    List.headD_cons]

theorem px0_last : px0.getLastD [] = [2] := by
  rw [px0, List.getLastD_concat]

/-- **C10**: the body of `backtest` reads only the module-global
`port_full_pd` (here `pd_dates`/`pd_rows`) and the price matrix; its
`port_full` parameter is dead, so any two values of it produce the same
P&L output. -/
theorem backtest_independent_of_port_full_param
    (px_close pf pf' : List (List ℚ)) (pd_dates : List ℕ) (pd_rows : List (List ℚ)) :
    backtest px_close pf pd_dates pd_rows = backtest px_close pf' pd_dates pd_rows := rfl

theorem max_size_caps_nonneg (w : List ℚ) :
    0 ≤ (max_size_caps w).1 ∧ 0 ≤ (max_size_caps w).2 := by
  rw [max_size_caps]
  split_ifs with h
  · norm_num
  · have hs : 0 ≤ (w.map (fun x => |x|)).sum := by
      apply List.sum_nonneg
      intro x hx
      rcases List.mem_map.1 hx with ⟨y, _, rfl⟩
      exact abs_nonneg y
    have hth : 0 ≤ min (150000 : ℚ) ((w.map (fun x => |x|)).sum * 0.01) := by
      apply le_min (by norm_num)
      positivity
    refine ⟨hth, le_min (by linarith) ?_⟩
    apply List.sum_nonneg
    intro x hx
    have := (List.mem_filter.1 hx).2
    exact le_of_lt (of_decide_eq_true this)

/-- **C2 counterexample**: for the prior position `w = [100]` the
constraint builder yields `gamma = [99]` and `delta = [10]`, which
violates `gamma ≤ delta` elementwise. -/
theorem max_size_not_gamma_le_delta_at_100 :
    ¬ List.Forall₂ (· ≤ ·) (max_size [100]).1 (max_size [100]).2 := by
  have h : max_size [100] = ([99], [10]) := by
    norm_num [max_size, max_size_caps]
  rw [h]
  intro hf
  rcases hf with _ | ⟨h1, _⟩
  norm_num at h1

/-- **C2 (amended)**: the bounds pair of `max_size` satisfies
`gamma ≤ delta` elementwise exactly when every entry of the prior
position is bounded in magnitude by `pi + theta` (the caps computed from
that position) — in particular for the all-zero prior position; for
larger positions the invariant fails. -/
theorem max_size_gamma_le_delta_iff (w : List ℚ) :
    List.Forall₂ (· ≤ ·) (max_size w).1 (max_size w).2 ↔
      ∀ x ∈ w, |x| ≤ (max_size_caps w).2 + (max_size_caps w).1 := by
  obtain ⟨hth, hpi⟩ := max_size_caps_nonneg w
  rw [max_size]
  rw [List.forall₂_map_left_iff, List.forall₂_map_right_iff, List.forall₂_same]
  refine forall_congr' fun x => imp_congr_right fun _ => ?_
  rw [max_le_iff, le_min_iff, le_min_iff, abs_le]
  constructor
  · rintro ⟨⟨-, h1⟩, h2, -⟩
    constructor <;> linarith
  · rintro ⟨h1, h2⟩
    refine ⟨⟨?_, ?_⟩, ?_, ?_⟩ <;> linarith

/-- **C3**: on a 250-day window where the price rises from 1 (oldest row)
to 2 (most recent row), the raw momentum signal computed by the code
(`data_period.iloc[0,:]/data_period.iloc[-1,:]-1`) is `-1/2` — the ratio
of the OLDEST close to the most recent one, minus one — while the
"cumulative return" its own comment and the spec describe (most recent
over oldest, minus one) is `1`. -/
theorem mom_raw_inverted_ratio :
    mom_raw_at 250 px0 = [-(1 / 2)] ∧
      List.zipWith (fun recent old => recent / old - 1) (px0.getLastD []) (px0.headD []) = [1] := by
  have hw : mom_window 250 px0 = px0 := by
    rw [mom_window, List.take_of_length_le (le_of_eq px0_len), Nat.sub_self, List.drop_zero]
  constructor
  · rw [mom_raw_at, hw, alpha_mom_ret, px0_head, px0_last]
    norm_num
  · rw [px0_head, px0_last]
    norm_num

/-- **C4 counterexample**: with 5 days of volume history `[0,0,0,0,100]`
and `t = 5`, the raw volume signal is the mean of rows 0-3 (days `t-5`
through `t-2`), namely `0`, and not the mean of the 4 days ending one day
before `t` (rows 1-4), which is `25`. -/
theorem vol_raw_excludes_day_before_t :
    vol_raw_at 5 pxv = [0] ∧ colMeans ((pxv.take 5).drop 1) = [25] ∧
      vol_raw_at 5 pxv ≠ colMeans ((pxv.take 5).drop 1) := by
  refine ⟨?_, ?_, ?_⟩
  · norm_num [vol_raw_at, alpha_vol_avg, vol_window, pxv, ilocNeg5Neg1, colMeans, colSums]
  · norm_num [pxv, colMeans, colSums]
  · norm_num [vol_raw_at, alpha_vol_avg, vol_window, pxv, ilocNeg5Neg1, colMeans, colSums]

/-- **C4 (amended)**: for every day `t ≥ 5` within the volume history,
the raw volume sub-signal equals the per-asset mean over the 4 trading
days `t-5 .. t-2`, i.e. the trailing window ending TWO days before `t`
(the slice `iloc[-5:-1]` of the 5-row window `px_vol[t-5:t]` drops day
`t-1` as well as day `t`). -/
theorem vol_raw_eq_mean_to_t_sub_two (t : ℕ) (px : List (List ℚ))
    (h5 : 5 ≤ t) (hlen : t ≤ px.length) :
    vol_raw_at t px = colMeans ((px.take (t - 1)).drop (t - 5)) := by
  have hwl : (vol_window t px).length = 5 := by
    rw [vol_window, List.length_drop, List.length_take]
    omega
  have hslice : ilocNeg5Neg1 (vol_window t px) = (px.take (t - 1)).drop (t - 5) := by
    rw [ilocNeg5Neg1, hwl]
    rw [show (5 : ℕ) - 1 = 4 from rfl, show (5 : ℕ) - 5 = 0 from rfl, List.drop_zero,
      vol_window]
    rw [List.take_drop, List.take_take]
    rw [show (t - 5 + 4) ⊓ t = t - 1 from by omega]
  rw [vol_raw_at, alpha_vol_avg, hslice]

theorem vol_raw_eq_mean_to_t_sub_two_witness :
    5 ≤ 5 ∧ 5 ≤ pxv.length ∧
      vol_raw_at 5 pxv = colMeans ((pxv.take 4).drop 0) :=
  ⟨le_refl 5, by norm_num [pxv],
    vol_raw_eq_mean_to_t_sub_two 5 pxv (le_refl 5) (by norm_num [pxv])⟩

/-! ### Windsorize -/

theorem listMean_replicate_zero (k : ℕ) : listMean (List.replicate k (0 : ℝ)) = 0 := by
  rw [listMean, List.sum_replicate, smul_zero, zero_div]

theorem listVar_replicate_zero (k : ℕ) : listVar (List.replicate k (0 : ℝ)) = 0 := by
  rw [listVar, List.map_replicate, listMean_replicate_zero]
  norm_num

theorem listStd_replicate_zero (k : ℕ) : listStd (List.replicate k (0 : ℝ)) = 0 := by
  rw [listStd, listVar_replicate_zero, Real.sqrt_zero]

theorem standardize_replicate_zero (k : ℕ) :
    standardize (List.replicate k (0 : ℝ)) = List.replicate k 0 := by
  rw [standardize, listMean_replicate_zero, listStd_replicate_zero, List.map_replicate]
  norm_num

theorem clip3_replicate_zero (k : ℕ) :
    clip3 (List.replicate k (0 : ℝ)) = List.replicate k 0 := by
  rw [clip3, List.map_replicate]
  norm_num

theorem windLoop_replicate_zero (n k : ℕ) :
    windLoop n (List.replicate k (0 : ℝ)) = List.replicate k 0 := by
  induction n with
  | zero => rfl
  | succ j ih => rw [windLoop, standardize_replicate_zero, clip3_replicate_zero, ih]

theorem standardize_of_std_zero (l : List ℝ) (h : listStd l = 0) :
    standardize l = List.replicate l.length 0 := by
  rw [standardize, h]
  simp only [div_zero, List.map_const']

/-- **C8**: on a zero-variance input vector the normalizer never returns a
value: the standardization divides by a zero standard deviation (pandas:
all-NaN; the embedding: the all-zero junk list), and the final
standard-deviation assertion cannot hold, so the computation fails fast
for every iteration count. -/
theorem windsorize_zero_variance_fails (v : List ℝ) (n : ℕ) (hv : listVar v = 0) :
    windsorize v n = none := by
  have hstd : listStd v = 0 := by rw [listStd, hv, Real.sqrt_zero]
  have hout : listStd (windLoop n v) = 0 := by
    cases n with
    | zero => exact hstd
    | succ k =>
      rw [windLoop, standardize_of_std_zero v hstd, clip3_replicate_zero,
        windLoop_replicate_zero, listStd_replicate_zero]
  simp only [windsorize]
  rw [if_neg]
  rintro ⟨-, h2, -⟩
  rw [hout] at h2
  norm_num at h2

theorem windsorize_zero_variance_fails_witness :
    listVar [(2 : ℝ), 2] = 0 ∧ windsorize [(2 : ℝ), 2] 10 = none :=
  ⟨by norm_num [listVar, listMean],
    windsorize_zero_variance_fails [2, 2] 10 (by norm_num [listVar, listMean])⟩

theorem listMean_mone_zero_one : listMean [(-1 : ℝ), 0, 1] = 0 := by
  norm_num [listMean]

theorem listVar_mone_zero_one : listVar [(-1 : ℝ), 0, 1] = 1 := by
  norm_num [listVar, listMean]

theorem listStd_mone_zero_one : listStd [(-1 : ℝ), 0, 1] = 1 := by
  rw [listStd, listVar_mone_zero_one, Real.sqrt_one]

theorem standardize_mone_zero_one : standardize [(-1 : ℝ), 0, 1] = [-1, 0, 1] := by
  rw [standardize, listMean_mone_zero_one, listStd_mone_zero_one]
  norm_num

theorem clip3_mone_zero_one : clip3 [(-1 : ℝ), 0, 1] = [-1, 0, 1] := by
  rw [clip3]
  norm_num

theorem windLoop_mone_zero_one (n : ℕ) : windLoop n [(-1 : ℝ), 0, 1] = [-1, 0, 1] := by
  induction n with
  | zero => rfl
  | succ k ih => rw [windLoop, standardize_mone_zero_one, clip3_mone_zero_one, ih]

theorem listMaxAbs_mone_zero_one : listMaxAbs [(-1 : ℝ), 0, 1] = 1 := by
  norm_num [listMaxAbs]

theorem windsorize_mone_zero_one : windsorize [(-1 : ℝ), 0, 1] 10 = some [-1, 0, 1] := by
  simp only [windsorize, windLoop_mone_zero_one]
  rw [if_pos]
  rw [listMean_mone_zero_one, listStd_mone_zero_one, listMaxAbs_mone_zero_one]
  norm_num

/-- **C5 counterexample**: the vector `[-1, 0, 1]` has nonzero variance
and is a fixed point of the standardize-and-clip iteration; after 10
iterations the normalizer RETURNS it, yet its maximum absolute value is
`1`, not within `0.01` of `3` — the code's `max(abs(out))-3<0.01` assert
is one-sided, so the claimed two-sided postcondition is neither
guaranteed nor enforced by a fail-fast. -/
theorem windsorize_returns_far_from_three :
    listVar [(-1 : ℝ), 0, 1] ≠ 0 ∧
      windsorize [(-1 : ℝ), 0, 1] 10 = some [-1, 0, 1] ∧
      ¬ |listMaxAbs [(-1 : ℝ), 0, 1] - 3| < 0.01 := by
  refine ⟨?_, windsorize_mone_zero_one, ?_⟩
  · rw [listVar_mone_zero_one]; norm_num
  · rw [listMaxAbs_mone_zero_one]; norm_num

theorem clip3_abs_le_three (u : List ℝ) : ∀ x ∈ clip3 u, |x| ≤ 3 := by
  intro x hx
  rcases List.mem_map.1 hx with ⟨y, -, rfl⟩
  by_cases hy : 3 < |y|
  · rw [if_pos hy]
    have hy0 : |y| ≠ 0 := by positivity
    rw [abs_div, abs_mul, abs_abs, abs_of_nonneg (by norm_num : (0 : ℝ) ≤ 3),
      mul_div_assoc, div_self hy0, mul_one]
  · rw [if_neg hy]
    exact le_of_not_lt hy

theorem foldl_max_le_three (l : List ℝ) : ∀ a : ℝ, a ≤ 3 → (∀ x ∈ l, x ≤ 3) →
    l.foldl max a ≤ 3 := by
  induction l with
  | nil => intro a ha _; exact ha
  | cons x xs ih =>
    intro a ha h
    rw [List.foldl_cons]
    exact ih _ (max_le ha (h x (List.mem_cons_self x xs))) fun y hy => h y (List.mem_cons_of_mem x hy)

theorem listMaxAbs_clip3_le_three (u : List ℝ) : listMaxAbs (clip3 u) ≤ 3 := by
  rw [listMaxAbs]
  apply foldl_max_le_three _ 0 (by norm_num)
  intro x hx
  rcases List.mem_map.1 hx with ⟨y, hy, rfl⟩
  exact clip3_abs_le_three u y hy

theorem windLoop_succ_eq_clip3 (k : ℕ) : ∀ l : List ℝ, ∃ u, windLoop (k + 1) l = clip3 u := by
  induction k with
  | zero => intro l; exact ⟨standardize l, rfl⟩
  | succ j ih =>
    intro l
    rw [windLoop]
    exact ih (clip3 (standardize l))

/-- **C5 (amended)**: whenever the normalizer (with the source's 10
iterations) returns a vector, that vector has `|mean| < 0.01`,
`|std - 1| < 0.01`, and maximum absolute value at most `3` (the clip
bound); the enforced max-abs postcondition is one-sided — no lower bound
near 3 holds, and a violation of the enforced conditions fails fast by
construction. -/
theorem windsorize_some_postconditions (v out : List ℝ)
    (h : windsorize v 10 = some out) :
    |listMean out| < 0.01 ∧ |listStd out - 1| < 0.01 ∧ listMaxAbs out ≤ 3 := by
  simp only [windsorize] at h
  split_ifs at h with hc
  have he := Option.some.inj h
  subst he
  obtain ⟨u, hu⟩ := windLoop_succ_eq_clip3 9 v
  exact ⟨hc.1, hc.2.1, by rw [hu]; exact listMaxAbs_clip3_le_three u⟩

theorem windsorize_some_postconditions_witness :
    windsorize [(-1 : ℝ), 0, 1] 10 = some [-1, 0, 1] ∧
      (|listMean [(-1 : ℝ), 0, 1]| < 0.01 ∧ |listStd [(-1 : ℝ), 0, 1] - 1| < 0.01 ∧
        listMaxAbs [(-1 : ℝ), 0, 1] ≤ 3) :=
  ⟨windsorize_mone_zero_one,
    windsorize_some_postconditions [(-1 : ℝ), 0, 1] [-1, 0, 1] windsorize_mone_zero_one⟩

/-! ### Rebalancing loop -/

theorem tm_go_spec (opt : ℕ → List ℚ → List ℚ) (beta : List ℚ) :
    ∀ (k t : ℕ) (w : List ℚ) (acc h : List (List ℚ)),
      tm_go opt beta k t w acc = some h →
      h.length = acc.length + k ∧ ∀ i < acc.length, h.getD i [] = acc.getD i [] := by
  intro k
  induction k with
  | zero =>
    intro t w acc h hh
    rw [tm_go] at hh
    injection hh with he
    subst he
    exact ⟨(Nat.add_zero _).symm, fun i _ => rfl⟩
  | succ j ih =>
    intro t w acc h hh
    simp only [tm_go] at hh
    split_ifs at hh with hc
    obtain ⟨hl, hp⟩ := ih (t + 1) (opt t w) (acc ++ [opt t w]) h hh
    constructor
    · rw [hl, List.length_append, List.length_cons, List.length_nil]
      omega
    · intro i hi
      rw [hp i (by rw [List.length_append]; omega)]
      rw [List.getD_eq_getElem?_getD, List.getD_eq_getElem?_getD,
        List.getElem?_append_left hi]

/-- **C7**: if the rebalancing loop completes on an `m`-row price matrix
(`m > 250`), the portfolio history has exactly `m - 250` rows — one per
day from index 250 onward — and its first row is the optimizer's output
for day 250 from the all-zero previous position. -/
theorem trade_model_history_shape (opt : ℕ → List ℚ → List ℚ) (beta : List ℚ) (m n : ℕ)
    (hist : List (List ℚ)) (hm : 250 < m) (h : trade_model opt beta m n = some hist) :
    hist.length = m - 250 ∧ hist.getD 0 [] = opt 250 (List.replicate n 0) := by
  rw [trade_model] at h
  obtain ⟨k, hk⟩ : ∃ k, m - 250 = k + 1 := ⟨m - 250 - 1, by omega⟩
  rw [hk] at h
  simp only [tm_go] at h
  split_ifs at h with hc
  obtain ⟨hl, hp⟩ := tm_go_spec opt beta k 251 (opt 250 (List.replicate n 0))
    ([] ++ [opt 250 (List.replicate n 0)]) hist h
  constructor
  · rw [hl]
    simp only [List.nil_append, List.length_cons, List.length_nil]
    omega
  · have := hp 0 (by simp)
    rw [this]
    rfl

theorem trade_model_history_shape_witness :
    250 < 251 ∧ trade_model (fun _ _ => [0]) [1] 251 1 = some [[0]] ∧
      (([[(0 : ℚ)]] : List (List ℚ)).length = 251 - 250 ∧
        ([[(0 : ℚ)]] : List (List ℚ)).getD 0 [] = [(0 : ℚ)]) :=
  ⟨by norm_num, by norm_num [trade_model, tm_go, dot],
    trade_model_history_shape (fun _ _ => [0]) [1] 251 1 [[0]] (by norm_num)
      (by norm_num [trade_model, tm_go, dot])⟩

/-- **C1**: the in-loop market-neutrality check is the SIGNED comparison
`np.dot(port_t, beta) < 0.01`, so a day whose optimizer output has
dollar-beta `-1` (absolute exposure `1 ≥ 0.01`) passes the assert and the
loop completes instead of failing fast — contradicting the claimed
`|beta·w_t| < 0.01` postcondition (and the intent evidenced by the QP's
`beta·w = 0` equality constraint). -/
theorem trade_model_accepts_negative_beta_exposure :
    trade_model (fun _ _ => [-1]) [1] 251 1 = some [[-1]] ∧
      ¬ |dot [-1] [1]| < 0.01 :=
  ⟨by norm_num [trade_model, tm_go, dot], by norm_num [dot]⟩

/-! ### Backtest -/

theorem set_append_len {α : Type*} (xs ys : List α) (v : α) (n : ℕ) (h : xs.length = n) :
    (xs ++ ys).set n v = xs ++ ys.set 0 v := by
  subst h
  induction xs with
  | nil => rfl
  | cons x xt ih =>
    rw [List.cons_append, List.length_cons, List.set_cons_succ, ih, List.cons_append]

theorem foldl_set_range (f : ℕ → ℚ) :
    ∀ (N : ℕ) (l0 : List ℚ), N ≤ l0.length →
      (List.range N).foldl (fun acc k => acc.set k (f k)) l0 =
        (List.range N).map f ++ l0.drop N := by
  intro N
  induction N with
  | zero => intro l0 _; simp
  | succ n ih =>
    intro l0 h
    have hn : n < l0.length := by omega
    rw [List.range_succ, List.foldl_append, ih l0 (by omega), List.foldl_cons,
      List.foldl_nil, List.map_append]
    rw [set_append_len _ _ _ n (by simp)]
    rw [List.drop_eq_getElem_cons hn, List.set_cons_zero, List.append_assoc]
    simp

theorem scanl_getD_zero (l : List ℚ) (b : ℚ) : (List.scanl (· + ·) b l).getD 0 0 = b := by
  cases l <;> rfl

theorem getD_succ_tail (l : List ℚ) (k : ℕ) : l.getD (k + 1) 0 = l.tail.getD k 0 := by
  cases l <;> rfl

theorem cumsum_go_getD : ∀ (l : List ℚ) (a : ℚ) (k : ℕ), k < l.length →
    ((List.scanl (· + ·) a l).tail).getD k 0 = a + (l.take (k + 1)).sum := by
  intro l
  induction l with
  | nil => intro a k hk; exact absurd hk (by simp)
  | cons x xs ih =>
    intro a k hk
    rw [List.scanl_cons, List.singleton_append, List.tail_cons]
    cases k with
    | zero =>
      rw [scanl_getD_zero, List.take_succ_cons, List.take_zero, List.sum_cons, List.sum_nil]
      ring
    | succ j =>
      rw [getD_succ_tail, ih (a + x) j (by rw [List.length_cons] at hk; omega)]
      rw [List.take_succ_cons, List.sum_cons]
      ring

theorem backtest_pnl_eq_map (px pf : List (List ℚ)) (dates : List ℕ) (rows : List (List ℚ))
    (hlen : dates.length = rows.length) :
    backtest_pnl px pf dates rows =
      (List.range dates.length).map
        (fun k => dot (ret_loc px (dates.getD k 0)) (rows.getD k [])) := by
  rw [backtest_pnl]
  rw [foldl_set_range _ dates.length _ (by simp [hlen])]
  rw [List.drop_of_length_le (by simp [hlen]), List.append_nil]

/-- **C6**: for every position `k` (equivalently, every date in the
portfolio history), the daily P&L produced by `backtest` is the dot
product of that day's position row with the return row carrying the SAME
date label (`ret_full.loc[t]`, i.e. the return realized over the day
ending at `t`); the cumulative series is the running sum of the daily
series, and both series have the same length as the portfolio history. -/
theorem backtest_pnl_dot_same_date (px pf : List (List ℚ)) (dates : List ℕ)
    (rows : List (List ℚ)) (hlen : dates.length = rows.length) :
    (backtest_pnl px pf dates rows).length = rows.length ∧
    (∀ k, k < rows.length →
      (backtest_pnl px pf dates rows).getD k 0 =
        dot (ret_loc px (dates.getD k 0)) (rows.getD k [])) ∧
    backtest px pf dates rows = cumsum (backtest_pnl px pf dates rows) ∧
    (backtest px pf dates rows).length = (backtest_pnl px pf dates rows).length ∧
    (∀ k, k < rows.length →
      (backtest px pf dates rows).getD k 0 =
        ((backtest_pnl px pf dates rows).take (k + 1)).sum) := by
  have hmap := backtest_pnl_eq_map px pf dates rows hlen
  have hplen : (backtest_pnl px pf dates rows).length = rows.length := by
    rw [hmap]
    simp [hlen]
  refine ⟨hplen, ?_, rfl, ?_, ?_⟩
  · intro k hk
    rw [hmap, List.getD_eq_getElem?_getD, List.getElem?_map,
      List.getElem?_range (show k < dates.length by omega)]
    rfl
  · rw [backtest, cumsum, List.length_tail, List.length_scanl, hplen]
    omega
  · intro k hk
    have hk' : k < (backtest_pnl px pf dates rows).length := by rw [hplen]; exact hk
    rw [backtest, cumsum, cumsum_go_getD _ 0 k hk', zero_add]

theorem backtest_pnl_dot_same_date_witness :
    ([1] : List ℕ).length = ([[10]] : List (List ℚ)).length ∧
      ((backtest_pnl [[1], [2]] [] [1] [[10]]).length = ([[10]] : List (List ℚ)).length ∧
      (∀ k, k < ([[10]] : List (List ℚ)).length →
        (backtest_pnl [[1], [2]] [] [1] [[10]]).getD k 0 =
          dot (ret_loc [[1], [2]] (([1] : List ℕ).getD k 0)) (([[10]] : List (List ℚ)).getD k [])) ∧
      backtest [[1], [2]] [] [1] [[10]] = cumsum (backtest_pnl [[1], [2]] [] [1] [[10]]) ∧
      (backtest [[1], [2]] [] [1] [[10]]).length = (backtest_pnl [[1], [2]] [] [1] [[10]]).length ∧
      (∀ k, k < ([[10]] : List (List ℚ)).length →
        (backtest [[1], [2]] [] [1] [[10]]).getD k 0 =
          ((backtest_pnl [[1], [2]] [] [1] [[10]]).take (k + 1)).sum)) :=
  ⟨rfl, backtest_pnl_dot_same_date [[1], [2]] [] [1] [[10]] rfl⟩

/-! ### Risk model -/

/-- **C9**: `sigma_model` returns a covariance estimate only when every
eigenvalue of that estimate is strictly positive, and fails fast
(returns nothing) whenever the estimate has a non-positive eigenvalue. -/
theorem sigma_model_requires_positive_eigenvalues {n : ℕ}
    (est : List (List ℝ) → Matrix (Fin n) (Fin n) ℝ) (px : List (List ℝ)) :
    (∀ S, sigma_model est px = some S → S = est (calc_return px) ∧ eigAllPos S) ∧
      (¬ eigAllPos (est (calc_return px)) → sigma_model est px = none) := by
  constructor
  · intro S hS
    simp only [sigma_model] at hS
    split_ifs at hS with hpos
    have he := Option.some.inj hS
    subst he
    exact ⟨rfl, hpos⟩
  · intro hneg
    simp only [sigma_model]
    rw [if_neg hneg]

theorem sigma_model_requires_positive_eigenvalues_witness :
    eigAllPos (1 : Matrix (Fin 1) (Fin 1) ℝ) := by
  have hpos : eigAllPos (1 : Matrix (Fin 1) (Fin 1) ℝ) := by
    intro μ v hv hmul
    rw [Matrix.one_mulVec] at hmul
    have h0 : v 0 ≠ 0 := by
      intro h0
      exact hv (funext fun i => by rw [Subsingleton.elim i 0]; exact h0)
    have hv0 : v 0 = μ * v 0 := by
      have := congrFun hmul 0
      simpa using this
    have hμ : μ = 1 := by
      rcases mul_eq_zero.1 (show (1 - μ) * v 0 = 0 by ring_nf; linarith [hv0]) with h | h
      · linarith
      · exact absurd h h0
    rw [hμ]
    norm_num
  have hsome : sigma_model (fun _ => (1 : Matrix (Fin 1) (Fin 1) ℝ)) ([] : List (List ℝ)) =
      some 1 := by
    simp only [sigma_model]
    rw [if_pos hpos]
  exact ((sigma_model_requires_positive_eigenvalues (fun _ => 1) []).1 1 hsome).2

end StatArb
